import Mathlib

namespace Giveth

/-!
Verification of the `Pledges` event-processing service of feathers-giveth
(`src/blockchain/pledges.js`): the donation reconciliation engine, the
block-timestamp cache and the per-transaction ordering behaviour of
`transfer`.  On-chain ids and timestamps are modelled as numerals, amounts
(arbitrary-precision decimal strings handled through `toBN`) as `Int`,
pledge/donation string enums as `String` literals mirroring the source.
-/

/-! ### Association-list helpers

`blockTimes` and `fetchingBlocks` are plain JS objects used as maps from a
block number to a value; we model them as association lists keyed by `Nat`. -/

def lookupA {α : Type} : List (Nat × α) → Nat → Option α
  | [], _ => none
  | p :: ps, n => if p.1 = n then some p.2 else lookupA ps n

def insertA {α : Type} : List (Nat × α) → Nat → α → List (Nat × α)
  | [], n, v => [(n, v)]
  | p :: ps, n, v => if p.1 = n then (n, v) :: ps else p :: insertA ps n v

def removeA {α : Type} (l : List (Nat × α)) (n : Nat) : List (Nat × α) :=
  l.filter (fun p => p.1 ≠ n)

/-! ### Block-timestamp cache: insertion and eviction

`getBlockTimestamp` caches `blockNumber -> ts` in `this.blockTimes`; after
insertion, when the cache holds more than 50 entries, the source runs

  Object.keys(this.blockTimes).sort((a, b) => b - a).forEach(key => delete this.blockTimes[key]);

i.e. it sorts all keys in descending numeric order and deletes every one of
them.  `sortDesc` models the descending key sort; `evict` models the
`forEach` of deletions. -/

def insertDesc (k : Nat) : List Nat → List Nat
  | [] => [k]
  | x :: xs => if x ≤ k then k :: x :: xs else x :: insertDesc k xs

def sortDesc : List Nat → List Nat
  | [] => []
  | x :: xs => insertDesc x (sortDesc xs)

def evict (bt : List (Nat × Nat)) : List (Nat × Nat) :=
  (sortDesc (bt.map Prod.fst)).foldl (fun acc k => acc.filter (fun p => p.1 ≠ k)) bt

def cacheInsert (bt : List (Nat × Nat)) (n ts : Nat) : List (Nat × Nat) :=
  if (insertA bt n ts).length > 50 then evict (insertA bt n ts) else insertA bt n ts

/-! ### Block-timestamp cache as a state machine

`getBlockTimestamp(blockNumber)`:
  - cached in `blockTimes`: resolve immediately;
  - a marker in `fetchingBlocks`: push the caller's `resolve` onto the
    waiter list and return a pending promise;
  - otherwise set `fetchingBlocks[blockNumber] = []` and start a
    `web3.eth.getBlock` fetch; when it resolves, cache the timestamp, evict
    on overflow, resolve every waiter and delete the marker; the chain has
    no `.catch`, so a rejected fetch runs none of that continuation.

State: `blockTimes` (cache), `fetching` (waiter ids per marked block),
`inFlight` (blocks whose `getBlock` call has started and not yet settled). -/

structure TsState where
  blockTimes : List (Nat × Nat)
  fetching : List (Nat × List Nat)
  inFlight : List Nat
  deriving DecidableEq, Repr

inductive CallResult where
  | cached (ts : Nat)
  | attached
  | started
  deriving DecidableEq, Repr

/-- The synchronous part of one `getBlockTimestamp(n)` invocation by waiter
`wid`: what it returns and how it updates the shared state. -/

def tsCall (s : TsState) (n wid : Nat) : TsState × CallResult :=
  match lookupA s.blockTimes n with
  | some ts => (s, .cached ts)
  | none =>
    match lookupA s.fetching n with
    | some ws => ({ s with fetching := insertA s.fetching n (ws ++ [wid]) }, .attached)
    | none =>
      ({ s with fetching := insertA s.fetching n [], inFlight := n :: s.inFlight }, .started)

/-- The continuation run when the `getBlock(n)` fetch resolves with
timestamp `ts`: cache it, evict on overflow, resolve all waiters with `ts`
and delete the `fetchingBlocks` marker.  Returns the resolutions
`(waiter, ts)` delivered to attached waiters. -/

def tsComplete (s : TsState) (n ts : Nat) : TsState × List (Nat × Nat) :=
  ({ blockTimes := cacheInsert s.blockTimes n ts,
     fetching := removeA s.fetching n,
     inFlight := s.inFlight.erase n },
   ((lookupA s.fetching n).getD []).map (fun w => (w, ts)))

/-- A rejected `getBlock(n)` fetch: the `.then` continuation never runs, so
only the fetch stops being outstanding; no cache write, no waiter
resolution, no marker cleanup. -/

def tsFail (s : TsState) (n : Nat) : TsState :=
  { s with inFlight := s.inFlight.erase n }

inductive TsLabel where
  | call (n wid : Nat) (r : CallResult)
  | complete (n ts : Nat) (resolved : List (Nat × Nat))
  | fail (n : Nat)
  deriving DecidableEq, Repr

inductive TsStep : TsState → TsLabel → TsState → Prop
  | call (s : TsState) (n wid : Nat) :
      TsStep s (.call n wid (tsCall s n wid).2) (tsCall s n wid).1
  | complete (s : TsState) (n ts : Nat) (h : n ∈ s.inFlight) :
      TsStep s (.complete n ts (tsComplete s n ts).2) (tsComplete s n ts).1
  | fail (s : TsState) (n : Nat) (h : n ∈ s.inFlight) :
      TsStep s (.fail n) (tsFail s n)

inductive TsTrace : TsState → List TsLabel → TsState → Prop
  | nil (s : TsState) : TsTrace s [] s
  | cons {s s1 s2 : TsState} {l : TsLabel} {ls : List TsLabel}
      (h1 : TsStep s l s1) (h2 : TsTrace s1 ls s2) : TsTrace s (l :: ls) s2

def initTs : TsState := ⟨[], [], []⟩

def TsReach (s : TsState) : Prop := ∃ ls, TsTrace initTs ls s

/-- The reachable-state invariant of the cache: no duplicate outstanding
fetches, every outstanding fetch has its `fetchingBlocks` marker, and a
marked block is never simultaneously cached. -/

def TsInv (s : TsState) : Prop :=
  s.inFlight.Nodup ∧
  (∀ n, n ∈ s.inFlight → (lookupA s.fetching n).isSome) ∧
  (∀ n, (lookupA s.fetching n).isSome → lookupA s.blockTimes n = none)

/-- A block number whose fetch has failed: its `fetchingBlocks` marker is
still present, no fetch is outstanding, and no timestamp is cached. -/

def Stuck (s : TsState) (n : Nat) : Prop :=
  (lookupA s.fetching n).isSome ∧ n ∉ s.inFlight ∧ lookupA s.blockTimes n = none

/-! ### Data model of the reconciliation engine

On-chain values fetched through `liquidPledging.getPledge` /
`pledgeAdmins.get`, and the persisted donation record.  Admin and donation
ids are modelled as numerals, amounts as `Int` (the numeric value of the
decimal string handled through `toBN`). -/

structure Pledge where
  owner : Nat
  amount : Int
  pledgeState : String
  nDelegates : Nat
  intendedProject : Nat
  commitTime : Nat
  oldPledge : String
  deriving DecidableEq, Repr

structure PledgeAdmin where
  id : Nat
  type : String
  typeId : Nat
  addr : String
  deriving DecidableEq, Repr

/-- The fields of an unset directive object assigned to the mutation's
`$unset` key (`Object.assign` replaces the whole `$unset` value). -/

structure UnsetObj where
  intendedProject : Bool
  intendedProjectId : Bool
  intendedProjectType : Bool
  delegate : Bool
  delegateId : Bool
  delegateType : Bool
  deriving DecidableEq, Repr

def ipUnsetObj : UnsetObj := ⟨true, true, true, false, false, false⟩

def delegateUnsetObj : UnsetObj := ⟨false, false, false, true, true, true⟩

/-- A persisted donation record (`_id` is modelled as `id`; the joined
fields `giver`, `ownerEntity`, `requiredConfirmations`, `confirmations`
that `_doTransfer` deletes from the copy are left out of the model). -/

structure Donation where
  id : Nat
  giverAddress : String
  amount : Int
  pledgeId : String
  owner : Nat
  ownerId : Nat
  ownerType : String
  status : String
  paymentStatus : String
  intendedProject : Option Nat
  intendedProjectId : Option Nat
  intendedProjectType : Option String
  delegate : Option Nat
  delegateId : Option Nat
  commitTime : Option Nat
  txHash : String
  deriving DecidableEq, Repr

/-- Modelled from the spec: the `pledgeState` helper imported from
`./helpers` (not part of the provided sources) maps the on-chain pledge
state enum `Normal=0 / Paying=1 / Paid=2` to its name, mirrored into the
donation's `paymentStatus`. -/

def pledgeState (state : String) : String :=
  if state = "1" then "Paying" else if state = "2" then "Paid" else "Normal"

def getDonationStatus (pledge : Pledge) (pledgeAdmin : PledgeAdmin)
    (hasIntendedProject hasDelegate : Bool) : String :=
  if pledge.pledgeState = "1" then "paying"
  else if pledge.pledgeState = "2" then "paid"
  else if hasIntendedProject then "to_approve"
  else if pledgeAdmin.type = "giver" || hasDelegate then "waiting"
  else "committed"

/-! ### `newDonation` and the mint path of `transfer` -/

/-- The mutation built by `newDonation`; `txHash` is merged in only on the
`create` path (`Object.assign(mutation, { txHash })`). -/

structure NewDonationMutation where
  giverAddress : String
  amount : Int
  pledgeId : String
  owner : Nat
  ownerId : Nat
  ownerType : String
  status : String
  paymentStatus : String
  txHash : Option String
  deriving DecidableEq, Repr

def mintMutation (pledge : Pledge) (giver : PledgeAdmin) (pledgeId : String)
    (amount : Int) (txHash : Option String) : NewDonationMutation :=
  { giverAddress := giver.addr
    amount := amount
    pledgeId := pledgeId
    owner := pledge.owner
    ownerId := giver.typeId
    ownerType := giver.type
    status := "waiting"
    paymentStatus := pledgeState pledge.pledgeState
    txHash := txHash }

inductive NewDonationResult where
  | create (m : NewDonationMutation)
  | patchExisting (id : Nat) (m : NewDonationMutation)
  | reProcess
  deriving DecidableEq, Repr

/-- `newDonation(pledgeId, amount, txHash, retry)` given the fetched pledge,
its owning admin and the result of the `txHash` donation lookup: create on
retry, reschedule (throw `ReProcessEvent`) on a first-attempt miss, patch
when a donation was found. -/

def newDonation (pledge : Pledge) (giver : PledgeAdmin) (found : Option Donation)
    (retry : Bool) (pledgeId : String) (amount : Int) (txHash : String) :
    NewDonationResult :=
  match found with
  | none =>
    if retry then .create (mintMutation pledge giver pledgeId amount (some txHash))
    else .reProcess
  | some d => .patchExisting d.id (mintMutation pledge giver pledgeId amount none)

def resultStatus : NewDonationResult → Option String
  | .create m => some m.status
  | .patchExisting _ m => some m.status
  | .reProcess => none

inductive MintOp where
  | create (m : NewDonationMutation)
  | patch (id : Nat) (m : NewDonationMutation)
  deriving DecidableEq, Repr

/-- The observable outcome of one run of `processEvent` inside `transfer`:
whether `queue.purge(txHash)` was reached, whether a delayed retry was
scheduled (`setTimeout(.., 5000)`), the donation-store calls issued, whether
the async function itself rejected, and whether an error was merely
logged. -/

structure EventRunResult where
  purged : Bool
  rescheduledDelay : Option Nat
  ops : List MintOp
  rejected : Bool
  loggedError : Bool
  deriving DecidableEq, Repr

/-- One run of `processEvent`.  `tsOk` is whether `getBlockTimestamp`
resolved (its rejection propagates out of the `async` function before any
other statement); `sideFails` is whether the donation-store call (or, on
the non-mint path, anything inside `_transfer`, which ends in
`.catch(logger.error)`) rejected — `errWrapper` turns a `newDonation`
rejection into a logged error unless it is a `ReProcessEvent`. -/

def processEventRun (tsOk : Bool) (eventFrom : String) (found : Option Donation)
    (retry sideFails : Bool) (pledge : Pledge) (giver : PledgeAdmin)
    (eventTo : String) (amount : Int) (txHash : String) : EventRunResult :=
  if tsOk = false then ⟨false, none, [], true, false⟩
  else if eventFrom = "0" then
    match newDonation pledge giver found retry eventTo amount txHash with
    | .reProcess => ⟨false, some 5000, [], false, false⟩
    | .create m => ⟨true, none, [.create m], false, sideFails⟩
    | .patchExisting i m => ⟨true, none, [.patch i m], false, sideFails⟩
  else ⟨true, none, [], false, sideFails⟩

/-! ### `_transfer`: locating the donation to mutate -/

def donationCandidates (store : List Donation) (pledgeId : String) : List Donation :=
  store.filter (fun d => d.pledgeId = pledgeId)

inductive GetDonationResult where
  | found (d : Donation)
  | unresolvable (ctxFrom ctxTo : String) (ctxAmount : Int) (ctxTs : Nat)
      (ctxTxHash : String) (ctxData : List Donation)
  | typeError
  deriving DecidableEq, Repr

/-- The `getDonation` cascade of `_transfer` over the donations whose
`pledgeId` equals the source pledge id: a unique candidate; else a unique
`txHash` match; else the first `amount` match; else the `console.log`
dereferences `donations.data[0].amount`, which on an empty candidate list
raises a `TypeError` before the context-carrying `Error` is built. -/

def getDonation (store : List Donation) (fromId toId : String) (amount : Int)
    (ts : Nat) (txHash : String) : GetDonationResult :=
  match donationCandidates store fromId with
  | [d] => .found d
  | data =>
    match data.filter (fun d => d.txHash = txHash) with
    | [d] => .found d
    | _ =>
      match data.filter (fun d => d.amount = amount) with
      | d :: _ => .found d
      | [] =>
        match data with
        | [] => .typeError
        | _ :: _ => .unresolvable fromId toId amount ts txHash data

/-! ### `createDonationMutation` and `_doTransfer` -/

structure TransferInfo where
  fromPledgeAdmin : PledgeAdmin
  toPledgeAdmin : PledgeAdmin
  fromPledge : Pledge
  toPledge : Pledge
  toPledgeId : String
  delegate : Option PledgeAdmin
  intendedProject : Option PledgeAdmin
  donation : Donation
  amount : Int
  ts : Nat
  deriving DecidableEq, Repr

/-- JS truthiness of a stored `donation.intendedProject` (absent, `0` or a
positive id): present and nonzero. -/

def ipTruthy : Option Nat → Bool
  | none => false
  | some p => decide (p ≠ 0)

/-- The donation mutation object; `Option` fields model keys that are only
conditionally present, `unset` the `$unset` key. -/

structure DonationMutation where
  amount : Int
  paymentStatus : String
  owner : Nat
  ownerId : Nat
  ownerType : String
  intendedProject : Option Nat
  pledgeId : String
  commitTime : Nat
  status : String
  intendedProjectId : Option Nat
  intendedProjectType : Option String
  delegate : Option Nat
  delegateId : Option Nat
  unset : Option UnsetObj
  deriving DecidableEq, Repr

inductive MilestoneOp where
  | patch (typeId : Nat) (status : String) (mined : Bool)
  deriving DecidableEq, Repr

/-- `createDonationMutation(transferInfo)`: the mutation for the transfer
destination, plus the milestone patch it fires when the destination pledge
is paying/paid and owned by a milestone.  `commitTime` is the on-chain
commit time in ms when nonzero, else the block timestamp. -/

def createDonationMutation (ti : TransferInfo) : DonationMutation × List MilestoneOp :=
  let status := getDonationStatus ti.toPledge ti.toPledgeAdmin
    ti.intendedProject.isSome ti.delegate.isSome
  let m0 : DonationMutation :=
    { amount := ti.amount
      paymentStatus := pledgeState ti.toPledge.pledgeState
      owner := ti.toPledge.owner
      ownerId := ti.toPledgeAdmin.typeId
      ownerType := ti.toPledgeAdmin.type
      intendedProject := some ti.toPledge.intendedProject
      pledgeId := ti.toPledgeId
      commitTime := if ti.toPledge.commitTime > 0 then ti.toPledge.commitTime * 1000 else ti.ts
      status := status
      intendedProjectId := none
      intendedProjectType := none
      delegate := none
      delegateId := none
      unset := none }
  let m1 := match ti.intendedProject with
    | some ip => { m0 with intendedProjectId := some ip.typeId, intendedProjectType := some ip.type }
    | none => m0
  let m2 := if ti.intendedProject.isNone ∧ ipTruthy ti.donation.intendedProject then
      { m1 with intendedProject := none, unset := some ipUnsetObj }
    else m1
  let m3 := match ti.delegate with
    | some d => { m2 with delegate := some d.id, delegateId := some d.typeId }
    | none => m2
  let m4 := if (ti.delegate.isNone ∨ ti.toPledge.pledgeState = "1") ∧ ti.donation.delegate.isSome then
      { m3 with unset := some delegateUnsetObj }
    else m3
  let milestoneOps := if (ti.toPledge.pledgeState = "1" ∨ ti.toPledge.pledgeState = "2") ∧
      ti.toPledgeAdmin.type = "milestone" then
      [MilestoneOp.patch ti.toPledgeAdmin.typeId
        (if ti.toPledge.pledgeState = "1" then "Paying" else "Paid") true]
    else []
  (m4, milestoneOps)

def keyMerge {α : Type} : Option α → Option α → Option α
  | some v, _ => some v
  | none, old => old

/-- The record created on a split: `Object.assign({}, donation, mutation)`
with `_id` and the joined fields deleted.  A mutation key that is present
overrides the donation's value; a missing optional key leaves it. -/

structure NewDonationRecord where
  giverAddress : String
  amount : Int
  pledgeId : String
  owner : Nat
  ownerId : Nat
  ownerType : String
  status : String
  paymentStatus : String
  intendedProject : Option Nat
  intendedProjectId : Option Nat
  intendedProjectType : Option String
  delegate : Option Nat
  delegateId : Option Nat
  commitTime : Nat
  txHash : String
  unset : Option UnsetObj
  deriving DecidableEq, Repr

def mergeDonation (d : Donation) (m : DonationMutation) : NewDonationRecord :=
  { giverAddress := d.giverAddress
    amount := m.amount
    pledgeId := m.pledgeId
    owner := m.owner
    ownerId := m.ownerId
    ownerType := m.ownerType
    status := m.status
    paymentStatus := m.paymentStatus
    intendedProject := keyMerge m.intendedProject d.intendedProject
    intendedProjectId := keyMerge m.intendedProjectId d.intendedProjectId
    intendedProjectType := keyMerge m.intendedProjectType d.intendedProjectType
    delegate := keyMerge m.delegate d.delegate
    delegateId := keyMerge m.delegateId d.delegateId
    commitTime := m.commitTime
    txHash := d.txHash
    unset := m.unset }

inductive DoTransferOp where
  | patch (id : Nat) (status : String) (amount : Int)
  | patchMutation (id : Nat) (m : DonationMutation)
  | create (d : NewDonationRecord)
  deriving DecidableEq, Repr

/-- The status written by the split path's `updateDonation`: `paid` when
the transferred amount is the string `'0'`, else recomputed from the source
pledge's perspective. -/

def splitStatus (ti : TransferInfo) : String :=
  if ti.amount = 0 then "paid"
  else getDonationStatus ti.fromPledge ti.fromPledgeAdmin
    (ipTruthy ti.donation.intendedProject) ti.donation.delegate.isSome

/-- `_doTransfer(transferInfo)`: full transfer (donation amount equals the
transferred amount) patches the matched donation with the mutation; a split
patches it down by the transferred amount and creates the merged copy. -/

def doTransfer (ti : TransferInfo) : List DoTransferOp × List MilestoneOp :=
  if ti.donation.amount = ti.amount then
    ([.patchMutation ti.donation.id (createDonationMutation ti).1],
     (createDonationMutation ti).2)
  else
    ([.patch ti.donation.id (splitStatus ti) (ti.donation.amount - ti.amount),
      .create (mergeDonation ti.donation (createDonationMutation ti).1)],
     (createDonationMutation ti).2)

/-! ### Concrete sample values -/

def pledgeNormalEx : Pledge := ⟨7, 100, "0", 0, 0, 0, "0"⟩

def pledgePayingEx : Pledge := ⟨7, 100, "1", 0, 0, 0, "0"⟩

def giverAdminEx : PledgeAdmin := ⟨3, "giver", 9, "0xgiver"⟩

def campaignAdminEx : PledgeAdmin := ⟨4, "campaign", 11, "0xcampaign"⟩

def delegateAdminEx : PledgeAdmin := ⟨5, "dac", 12, "0xdac"⟩

def donA : Donation :=
  ⟨1, "0xg", 10, "5", 7, 9, "giver", "waiting", "Pledged",
   none, none, none, none, none, none, "hsh"⟩

def donB : Donation :=
  ⟨2, "0xg", 20, "5", 7, 9, "giver", "waiting", "Pledged",
   none, none, none, none, none, none, "hsh"⟩

def donC : Donation :=
  ⟨3, "0xg", 20, "5", 7, 9, "giver", "waiting", "Pledged",
   none, none, none, none, none, none, "other"⟩

def donDel : Donation :=
  ⟨6, "0xg", 10, "5", 7, 9, "giver", "waiting", "Pledged",
   none, none, none, some 5, some 12, none, "hsh"⟩

def tiSplitEx : TransferInfo :=
  ⟨giverAdminEx, campaignAdminEx, pledgeNormalEx, pledgeNormalEx, "6",
   none, none, donA, 3, 12345⟩

def tiPayingEx : TransferInfo :=
  ⟨giverAdminEx, campaignAdminEx, pledgeNormalEx, pledgePayingEx, "6",
   some delegateAdminEx, none, donDel, 10, 12345⟩

def isFound : GetDonationResult → Bool
  | .found _ => true
  | _ => false

def btFull : List (Nat × Nat) := (List.range 50).map (fun i => (i + 1, 1000 + i))

def tsS1 : TsState := ⟨[], [(1, [])], [1]⟩

def tsS2 : TsState := ⟨[], [(1, [5])], []⟩

theorem lookupA_insertA {α : Type} (l : List (Nat × α)) (n m : Nat) (v : α) :
    lookupA (insertA l n v) m = if m = n then some v else lookupA l m := by
  induction l with
  | nil =>
    by_cases hm : m = n
    · simp [insertA, lookupA, hm]
    · have hnm : ¬ n = m := fun h => hm h.symm
      simp [insertA, lookupA, hm, hnm]
  | cons p ps ih =>
    by_cases hp : p.1 = n
    · by_cases hm : m = n
      · simp [insertA, lookupA, hp, hm]
      · have hnm : ¬ n = m := fun h => hm h.symm
        have hpm : ¬ p.1 = m := by rw [hp]; exact hnm
        simp [insertA, lookupA, hp, hm, hnm, hpm]
    · by_cases hpm : p.1 = m
      · have hm : ¬ m = n := fun h => hp (by rw [hpm, h])
        simp [insertA, lookupA, hp, hpm, hm]
      · simp [insertA, lookupA, hp, hpm, ih]

theorem lookupA_removeA {α : Type} (l : List (Nat × α)) (n m : Nat) :
    lookupA (removeA l n) m = if m = n then none else lookupA l m := by
  induction l with
  | nil => simp [removeA, lookupA]
  | cons p ps ih =>
    by_cases hp : p.1 = n
    · have hrw : removeA (p :: ps) n = removeA ps n := by simp [removeA, hp]
      rw [hrw, ih]
      by_cases hm : m = n
      · simp [hm]
      · have hpm : ¬ p.1 = m := by rw [hp]; exact fun h => hm h.symm
        simp [lookupA, hm, hpm]
    · have hrw : removeA (p :: ps) n = p :: removeA ps n := by simp [removeA, hp]
      rw [hrw]
      by_cases hpm : p.1 = m
      · have hm : ¬ m = n := fun h => hp (by rw [hpm, h])
        simp [lookupA, hpm, hm]
      · simp [lookupA, hpm, ih]

theorem mem_insertDesc {a k : Nat} {l : List Nat} :
    a ∈ insertDesc k l ↔ a = k ∨ a ∈ l := by
  induction l with
  | nil => simp [insertDesc]
  | cons x xs ih =>
    simp only [insertDesc]
    split
    · simp [or_comm, or_assoc, or_left_comm]
    · simp [ih]
      tauto

theorem mem_sortDesc {a : Nat} {l : List Nat} : a ∈ sortDesc l ↔ a ∈ l := by
  induction l with
  | nil => simp [sortDesc]
  | cons x xs ih => simp [sortDesc, mem_insertDesc, ih]

theorem foldl_filter_del (ks : List Nat) :
    ∀ acc : List (Nat × Nat), (∀ p ∈ acc, p.1 ∈ ks) →
      ks.foldl (fun acc k => acc.filter (fun p => p.1 ≠ k)) acc = [] := by
  induction ks with
  | nil =>
    intro acc h
    cases acc with
    | nil => rfl
    | cons a l => exact absurd (h a (by simp)) (by simp)
  | cons k ks ih =>
    intro acc h
    simp only [List.foldl_cons]
    apply ih
    intro p hp
    have hmem := List.mem_filter.mp hp
    have hne : p.1 ≠ k := by simpa using hmem.2
    have := h p hmem.1
    simp only [List.mem_cons] at this
    tauto

/-- The eviction step deletes every cached entry: each key of `bt` occurs in
the descending key sort, so each entry is removed by the `forEach`. -/

theorem evict_eq_nil (bt : List (Nat × Nat)) : evict bt = [] := by
  apply foldl_filter_del
  intro p hp
  exact mem_sortDesc.mpr (List.mem_map_of_mem Prod.fst hp)

theorem lookupA_cacheInsert_ne {bt : List (Nat × Nat)} {n m ts : Nat} (hne : m ≠ n)
    (h : lookupA bt m = none) : lookupA (cacheInsert bt n ts) m = none := by
  unfold cacheInsert
  split
  · rw [evict_eq_nil]
    rfl
  · rw [lookupA_insertA, if_neg hne]
    exact h

theorem tsStep_inv {s s' : TsState} {l : TsLabel} (h : TsStep s l s') (hinv : TsInv s) :
    TsInv s' := by
  obtain ⟨h1, h2, h3⟩ := hinv
  cases h with
  | call n wid =>
    rcases hbt : lookupA s.blockTimes n with _ | ts
    · rcases hf : lookupA s.fetching n with _ | ws
      · simp only [tsCall, hbt, hf]
        refine ⟨?_, ?_, ?_⟩
        · refine List.nodup_cons.mpr ⟨fun hmem => ?_, h1⟩
          have := h2 n hmem
          rw [hf] at this
          simp at this
        · intro m hm
          simp only [lookupA_insertA]
          rcases List.mem_cons.mp hm with hm | hm
          · simp [hm]
          · split
            · simp
            · exact h2 m hm
        · intro m hm
          simp only [lookupA_insertA] at hm
          by_cases hmn : m = n
          · rw [hmn]
            exact hbt
          · rw [if_neg hmn] at hm
            exact h3 m hm
      · simp only [tsCall, hbt, hf]
        refine ⟨?_, ?_, ?_⟩
        · exact h1
        · intro m hm
          simp only [lookupA_insertA]
          split
          · simp
          · exact h2 m hm
        · intro m hm
          simp only [lookupA_insertA] at hm
          by_cases hmn : m = n
          · rw [hmn]
            exact hbt
          · rw [if_neg hmn] at hm
            exact h3 m hm
    · simp only [tsCall, hbt]
      exact ⟨h1, h2, h3⟩
  | complete n ts hn =>
    simp only [tsComplete]
    refine ⟨?_, ?_, ?_⟩
    · exact h1.erase n
    · intro m hm
      have hmem := List.mem_of_mem_erase hm
      have hmn : m ≠ n := ((List.Nodup.mem_erase_iff h1).mp hm).1
      rw [lookupA_removeA, if_neg hmn]
      exact h2 m hmem
    · intro m hm
      rw [lookupA_removeA] at hm
      by_cases hmn : m = n
      · rw [if_pos hmn] at hm
        simp at hm
      · rw [if_neg hmn] at hm
        exact lookupA_cacheInsert_ne hmn (h3 m hm)
  | fail n hn =>
    refine ⟨h1.erase n, ?_, ?_⟩
    · intro m hm
      exact h2 m (List.mem_of_mem_erase hm)
    · exact h3

theorem tsTrace_inv {s s' : TsState} {ls : List TsLabel} (h : TsTrace s ls s')
    (hinv : TsInv s) : TsInv s' := by
  induction h with
  | nil => exact hinv
  | cons h1 _ ih => exact ih (tsStep_inv h1 hinv)

theorem tsReach_inv {s : TsState} (h : TsReach s) : TsInv s := by
  obtain ⟨ls, htr⟩ := h
  refine tsTrace_inv htr ⟨?_, ?_, ?_⟩
  · exact List.nodup_nil
  · intro n hn
    simp [initTs] at hn
  · intro n hn
    simp [initTs, lookupA] at hn

theorem stuck_step {s s' : TsState} {l : TsLabel} {n : Nat} (hs : Stuck s n)
    (h : TsStep s l s') :
    Stuck s' n ∧ (∀ wid r, l = .call n wid r → r = .attached) ∧
      (∀ ts res, l ≠ .complete n ts res) := by
  obtain ⟨hf, hni, hbt⟩ := hs
  cases h with
  | call m wid =>
    rcases hbtm : lookupA s.blockTimes m with _ | ts
    · rcases hfm : lookupA s.fetching m with _ | ws
      · have hmn : m ≠ n := by
          intro hEq
          rw [hEq] at hfm
          rw [hfm] at hf
          simp at hf
        simp only [tsCall, hbtm, hfm]
        refine ⟨⟨?_, ?_, hbt⟩, ?_, ?_⟩
        · rw [lookupA_insertA, if_neg (Ne.symm hmn)]
          exact hf
        · intro hmem
          rcases List.mem_cons.mp hmem with hEq | hmem
          · exact hmn hEq.symm
          · exact hni hmem
        · intro wid' r hEq
          cases hEq
          exact absurd rfl hmn
        · intro ts res hEq
          cases hEq
      · simp only [tsCall, hbtm, hfm]
        refine ⟨⟨?_, hni, hbt⟩, ?_, ?_⟩
        · rw [lookupA_insertA]
          split
          · simp
          · exact hf
        · intro wid' r hEq
          cases hEq
          rfl
        · intro ts res hEq
          cases hEq
    · simp only [tsCall, hbtm]
      refine ⟨⟨hf, hni, hbt⟩, ?_, ?_⟩
      · intro wid' r hEq
        cases hEq
        rw [hbtm] at hbt
        cases hbt
      · intro ts res hEq
        cases hEq
  | complete m ts hm =>
    have hmn : m ≠ n := fun hEq => hni (hEq ▸ hm)
    simp only [tsComplete]
    refine ⟨⟨?_, ?_, ?_⟩, ?_, ?_⟩
    · rw [lookupA_removeA, if_neg (Ne.symm hmn)]
      exact hf
    · intro hmem
      exact hni (List.mem_of_mem_erase hmem)
    · exact lookupA_cacheInsert_ne (Ne.symm hmn) hbt
    · intro wid' r hEq
      cases hEq
    · intro ts' res hEq
      cases hEq
      exact absurd rfl hmn
  | fail m hm =>
    refine ⟨⟨hf, ?_, hbt⟩, ?_, ?_⟩
    · intro hmem
      exact hni (List.mem_of_mem_erase hmem)
    · intro wid' r hEq
      cases hEq
    · intro ts res hEq
      cases hEq

theorem stuck_trace {s s' : TsState} {ls : List TsLabel} {n : Nat} (hs : Stuck s n)
    (h : TsTrace s ls s') :
    Stuck s' n ∧ (∀ wid r, TsLabel.call n wid r ∈ ls → r = .attached) ∧
      (∀ ts res, TsLabel.complete n ts res ∉ ls) := by
  induction h with
  | nil => exact ⟨hs, by simp, by simp⟩
  | cons h1 h2 ih =>
    obtain ⟨hs1, hcall, hcomp⟩ := stuck_step hs h1
    obtain ⟨hs2, hcall2, hcomp2⟩ := ih hs1
    refine ⟨hs2, ?_, ?_⟩
    · intro wid r hmem
      rcases List.mem_cons.mp hmem with hEq | hmem
      · exact hcall wid r hEq.symm
      · exact hcall2 wid r hmem
    · intro ts res hmem
      rcases List.mem_cons.mp hmem with hEq | hmem
      · exact hcomp ts res hEq.symm
      · exact hcomp2 ts res hmem

/-! ### Claim theorems -/

/-- Claim C1, counterexample: for a mint whose destination pledge is in the
Paying state (`'1'`), the status the claim computes from the pledge/admin
context is `'paying'`, but `newDonation` writes `'waiting'`. -/

theorem C1_counterexample :
    resultStatus (newDonation pledgePayingEx giverAdminEx none true "1" 5 "0xtx") ≠
      some (getDonationStatus pledgePayingEx giverAdminEx
        (decide (pledgePayingEx.intendedProject > 0))
        (decide (pledgePayingEx.nDelegates > 0))) := by
  decide

/-- Claim C1, amended: for every mint Transfer event the status written to
the created or patched donation record is the constant `'waiting'`,
independent of the destination pledge state, intended project, admin type
or delegates; no status is written only on the first-attempt
`ReProcessEvent` miss. -/

theorem C1_amended_theorem (pledge : Pledge) (giver : PledgeAdmin)
    (found : Option Donation) (retry : Bool) (pledgeId : String) (amount : Int)
    (txHash : String) :
    resultStatus (newDonation pledge giver found retry pledgeId amount txHash) =
      if found.isNone ∧ retry = false then none else some "waiting" := by
  cases found <;> cases retry <;> simp [newDonation, resultStatus, mintMutation]

/-- Claim C2: evaluating the eviction step at a cache holding blocks 1..50
and inserting block 51 — the code deletes every entry, so the cache ends
empty and the newly inserted block 51 does not survive, contradicting the
claimed keep-highest-block-numbers policy. -/

theorem C2_code_behavior :
    (insertA btFull 51 2000).length = 51 ∧
    cacheInsert btFull 51 2000 = [] ∧
    lookupA (cacheInsert btFull 51 2000) 51 = none := by
  have h : cacheInsert btFull 51 2000 = [] := by
    unfold cacheInsert
    rw [if_pos (by decide)]
    exact evict_eq_nil _
  exact ⟨by decide, h, by rw [h]; rfl⟩

/-- Claim C8: after every insertion into the block-timestamp cache the
cache holds at most 50 entries (on overflow the eviction deletes every
entry, leaving 0). -/

theorem C8_capacity (bt : List (Nat × Nat)) (n ts : Nat) :
    (cacheInsert bt n ts).length ≤ 50 := by
  unfold cacheInsert
  by_cases h : (insertA bt n ts).length > 50
  · rw [if_pos h, evict_eq_nil]
    simp
  · rw [if_neg h]
    omega

/-- Claim C3, counterexample: when `getBlockTimestamp` rejects, the
rejection propagates out of `processEvent` before `queue.purge(txHash)` is
reached, so the key's queue is not advanced. -/

theorem C3_counterexample :
    (processEventRun false "0" none false false pledgeNormalEx giverAdminEx
      "1" 5 "0xtx").purged = false ∧
    (processEventRun false "0" none false false pledgeNormalEx giverAdminEx
      "1" 5 "0xtx").rejected = true := by
  decide

/-- Claim C3, amended: `queue.purge` is invoked exactly when the
block-timestamp fetch succeeds and the run does not end in a
`ReProcessEvent` reschedule (every other success or failure of the donation
processing is caught and still purges); a rescheduled run retries with
`retry = true`, for which no reschedule can recur.  When the
block-timestamp fetch rejects, purge is not invoked. -/

theorem C3_amended_theorem (tsOk : Bool) (eventFrom : String)
    (found : Option Donation) (retry sideFails : Bool) (pledge : Pledge)
    (giver : PledgeAdmin) (eventTo : String) (amount : Int) (txHash : String) :
    ((processEventRun tsOk eventFrom found retry sideFails pledge giver eventTo
        amount txHash).purged =
      (tsOk && (processEventRun tsOk eventFrom found retry sideFails pledge giver
        eventTo amount txHash).rescheduledDelay.isNone)) ∧
    (processEventRun tsOk eventFrom found true sideFails pledge giver eventTo
        amount txHash).rescheduledDelay = none := by
  cases tsOk <;> by_cases hf : eventFrom = "0" <;> cases found <;> cases retry <;>
    simp [processEventRun, newDonation, hf]

/-- Claim C5: a mint (`from = '0'`) with no matching donation is
rescheduled after the fixed 5000 ms delay on the first attempt, with no
donation-store call; the retried attempt creates the donation (with
`txHash` merged in); when a matching donation exists it is patched
instead. -/

theorem C5_mint_retry (pledge : Pledge) (giver : PledgeAdmin) (sideFails : Bool)
    (eventTo : String) (amount : Int) (txHash : String) :
    processEventRun true "0" none false sideFails pledge giver eventTo amount
        txHash = ⟨false, some 5000, [], false, false⟩ ∧
    processEventRun true "0" none true sideFails pledge giver eventTo amount
        txHash =
      ⟨true, none,
       [MintOp.create (mintMutation pledge giver eventTo amount (some txHash))],
       false, sideFails⟩ ∧
    ∀ (d : Donation) (retry : Bool),
      processEventRun true "0" (some d) retry sideFails pledge giver eventTo
          amount txHash =
        ⟨true, none,
         [MintOp.patch d.id (mintMutation pledge giver eventTo amount none)],
         false, sideFails⟩ := by
  refine ⟨by simp [processEventRun, newDonation], by simp [processEventRun, newDonation], ?_⟩
  intro d retry
  cases retry <;> simp [processEventRun, newDonation]

/-- Claim C4: in every reachable cache state at most one fetch per block
number is outstanding, and a `getBlockTimestamp` call for a block whose
fetch is in flight returns attached (starting no new fetch, leaving the
outstanding fetches unchanged, appending the caller to the waiter list) and
is resolved with the fetch's timestamp when that fetch completes. -/

theorem C4_coalescing (s : TsState) (hr : TsReach s) (n wid ts : Nat) :
    s.inFlight.count n ≤ 1 ∧
    (n ∈ s.inFlight →
      (tsCall s n wid).2 = CallResult.attached ∧
      (tsCall s n wid).1.inFlight = s.inFlight ∧
      (wid, ts) ∈ (tsComplete (tsCall s n wid).1 n ts).2) := by
  obtain ⟨h1, h2, h3⟩ := tsReach_inv hr
  constructor
  · exact List.nodup_iff_count_le_one.mp h1 n
  · intro hn
    have hfs := h2 n hn
    rcases hfm : lookupA s.fetching n with _ | ws
    · rw [hfm] at hfs
      simp at hfs
    · have hbt : lookupA s.blockTimes n = none := h3 n (by rw [hfm]; simp)
      refine ⟨?_, ?_, ?_⟩
      · simp [tsCall, hbt, hfm]
      · simp [tsCall, hbt, hfm]
      · simp only [tsCall, hbt, hfm, tsComplete, lookupA_insertA, if_pos rfl]
        simp

/-- Claim C4, witness: in the reachable state with one outstanding fetch
for block 1, a second call by waiter 7 attaches and is resolved with the
fetched timestamp 99. -/

theorem C4_coalescing_witness :
    tsS1.inFlight.count 1 ≤ 1 ∧
    (tsCall tsS1 1 7).2 = CallResult.attached ∧
    (tsCall tsS1 1 7).1.inFlight = tsS1.inFlight ∧
    (7, 99) ∈ (tsComplete (tsCall tsS1 1 7).1 1 99).2 := by
  have hr : TsReach tsS1 :=
    ⟨[TsLabel.call 1 0 CallResult.started],
     TsTrace.cons (TsStep.call initTs 1 0) (TsTrace.nil tsS1)⟩
  have h := C4_coalescing tsS1 hr 1 7 99
  have h2 := h.2 (by decide)
  exact ⟨h.1, h2.1, h2.2.1, h2.2.2⟩

/-- Claim C9: after the fetch for an outstanding block number fails, the
block is stuck: its `fetchingBlocks` marker is never cleared, every
subsequent `getBlockTimestamp` call for it attaches (never starts a new
fetch), and no completion for it can ever occur, so attached promises never
settle. -/

theorem C9_failed_fetch (s : TsState) (n : Nat) (hr : TsReach s)
    (hn : n ∈ s.inFlight) :
    Stuck (tsFail s n) n ∧
    ∀ ls s', TsTrace (tsFail s n) ls s' →
      Stuck s' n ∧
      (∀ wid r, TsLabel.call n wid r ∈ ls → r = CallResult.attached) ∧
      (∀ ts res, TsLabel.complete n ts res ∉ ls) := by
  obtain ⟨h1, h2, h3⟩ := tsReach_inv hr
  have hstuck : Stuck (tsFail s n) n := by
    refine ⟨h2 n hn, ?_, h3 n (h2 n hn)⟩
    intro hmem
    exact (((List.Nodup.mem_erase_iff h1).mp hmem).1) rfl
  exact ⟨hstuck, fun ls s' htr => stuck_trace hstuck htr⟩

/-- Claim C9, witness: with a failed fetch for block 1, the state is stuck
and a subsequent call by waiter 5 attaches, reaching a state still stuck
for block 1. -/

theorem C9_failed_fetch_witness :
    Stuck (tsFail tsS1 1) 1 ∧ Stuck tsS2 1 := by
  have hr : TsReach tsS1 :=
    ⟨[TsLabel.call 1 0 CallResult.started],
     TsTrace.cons (TsStep.call initTs 1 0) (TsTrace.nil tsS1)⟩
  have h := C9_failed_fetch tsS1 1 hr (by decide)
  have htr : TsTrace (tsFail tsS1 1) [TsLabel.call 1 5 CallResult.attached] tsS2 :=
    TsTrace.cons (TsStep.call (tsFail tsS1 1) 1 5) (TsTrace.nil tsS2)
  exact ⟨h.1, (h.2 _ _ htr).1⟩

theorem createDonationMutation_amount (ti : TransferInfo) :
    (createDonationMutation ti).1.amount = ti.amount := by
  unfold createDonationMutation
  dsimp only
  cases ti.intendedProject <;> cases ti.delegate <;> split_ifs <;> rfl

/-- Claim C6: when the matched donation's amount strictly exceeds the
transferred amount, `_doTransfer` issues exactly one patch (decrementing
the original donation by the transferred amount) and exactly one create
(the merged copy whose amount is the transferred amount), and the split
invariant `originalAmountAfter + newDonationAmount = originalAmountBefore`
holds exactly over the integers. -/

theorem C6_split (ti : TransferInfo) (h : ti.donation.amount > ti.amount) :
    (doTransfer ti).1 =
      [DoTransferOp.patch ti.donation.id (splitStatus ti)
         (ti.donation.amount - ti.amount),
       DoTransferOp.create (mergeDonation ti.donation (createDonationMutation ti).1)] ∧
    (mergeDonation ti.donation (createDonationMutation ti).1).amount = ti.amount ∧
    ti.donation.amount - ti.amount + ti.amount = ti.donation.amount := by
  have hne : ti.donation.amount ≠ ti.amount := ne_of_gt h
  refine ⟨by simp [doTransfer, hne], ?_, by ring⟩
  have hm := createDonationMutation_amount ti
  simp [mergeDonation, hm]

/-- Claim C6, witness: the concrete split of a 10-unit donation by a
3-unit transfer. -/

theorem C6_split_witness :
    (doTransfer tiSplitEx).1 =
      [DoTransferOp.patch tiSplitEx.donation.id (splitStatus tiSplitEx)
         (tiSplitEx.donation.amount - tiSplitEx.amount),
       DoTransferOp.create
         (mergeDonation tiSplitEx.donation (createDonationMutation tiSplitEx).1)] ∧
    (mergeDonation tiSplitEx.donation (createDonationMutation tiSplitEx).1).amount =
      tiSplitEx.amount ∧
    tiSplitEx.donation.amount - tiSplitEx.amount + tiSplitEx.amount =
      tiSplitEx.donation.amount :=
  C6_split tiSplitEx (by decide)

/-- Claim C10: with the destination pledge Paying (`'1'`), a fetched
last-chain delegate and a donation that previously had a delegate, the
mutation both sets `delegate`/`delegateId` and carries the `$unset`
directive for `delegate`, `delegateId` and `delegateType`. -/

theorem C10_contradictory_mutation (ti : TransferInfo) (d : PledgeAdmin)
    (h1 : ti.toPledge.pledgeState = "1") (h2 : ti.delegate = some d)
    (h3 : ti.donation.delegate.isSome = true) :
    (createDonationMutation ti).1.delegate = some d.id ∧
    (createDonationMutation ti).1.delegateId = some d.typeId ∧
    (createDonationMutation ti).1.unset = some delegateUnsetObj ∧
    delegateUnsetObj.delegate = true ∧ delegateUnsetObj.delegateId = true ∧
    delegateUnsetObj.delegateType = true := by
  unfold createDonationMutation
  rw [h2]
  dsimp only
  rw [if_pos ⟨Or.inr h1, h3⟩]
  cases ti.intendedProject <;> split_ifs <;> simp [delegateUnsetObj]

/-- Claim C10, witness: concrete paying destination with a delegate and a
previously delegated donation. -/

theorem C10_contradictory_mutation_witness :
    (createDonationMutation tiPayingEx).1.delegate = some delegateAdminEx.id ∧
    (createDonationMutation tiPayingEx).1.delegateId = some delegateAdminEx.typeId ∧
    (createDonationMutation tiPayingEx).1.unset = some delegateUnsetObj ∧
    delegateUnsetObj.delegate = true ∧ delegateUnsetObj.delegateId = true ∧
    delegateUnsetObj.delegateType = true :=
  C10_contradictory_mutation tiPayingEx delegateAdminEx (by decide) (by decide) (by decide)

/-- Claim C7, counterexample: two candidate donations both match the
event's `txHash`, so by the claim one of them is chosen; the code requires
the `txHash` match to be unique, falls through to the (empty) amount match
and raises instead of choosing any donation. -/

theorem C7_counterexample :
    (donationCandidates [donA, donB] "5").any (fun d => d.txHash = "hsh") = true ∧
    isFound (getDonation [donA, donB] "5" "6" 3 0 "hsh") = false := by
  decide

/-- Claim C7, amended: the cascade chooses a unique candidate; else a
candidate matching the event's `txHash` provided that match is unique; else
the first candidate whose amount equals the transferred amount; otherwise
an error is raised rather than silently ignoring the event — with full
context when at least one candidate exists, and as a bare `TypeError` (from
dereferencing `donations.data[0]`) when there is no candidate at all. -/

theorem C7_amended (store : List Donation) (fromId toId : String) (amount : Int)
    (ts : Nat) (txHash : String) :
    (∀ d, donationCandidates store fromId = [d] →
      getDonation store fromId toId amount ts txHash = .found d) ∧
    ((donationCandidates store fromId).length ≠ 1 →
      ∀ d, (donationCandidates store fromId).filter (fun x => x.txHash = txHash) = [d] →
      getDonation store fromId toId amount ts txHash = .found d) ∧
    ((donationCandidates store fromId).length ≠ 1 →
      ((donationCandidates store fromId).filter (fun x => x.txHash = txHash)).length ≠ 1 →
      ∀ d rest, (donationCandidates store fromId).filter (fun x => x.amount = amount) = d :: rest →
      getDonation store fromId toId amount ts txHash = .found d) ∧
    ((donationCandidates store fromId).length ≠ 1 →
      ((donationCandidates store fromId).filter (fun x => x.txHash = txHash)).length ≠ 1 →
      (donationCandidates store fromId).filter (fun x => x.amount = amount) = [] →
      donationCandidates store fromId ≠ [] →
      getDonation store fromId toId amount ts txHash =
        .unresolvable fromId toId amount ts txHash (donationCandidates store fromId)) ∧
    (donationCandidates store fromId = [] →
      getDonation store fromId toId amount ts txHash = .typeError) := by
  unfold getDonation
  generalize donationCandidates store fromId = cs
  rcases cs with _ | ⟨d0, _ | ⟨d1, cs2⟩⟩
  · dsimp only
    refine ⟨by simp, by simp, by simp, by simp, by simp⟩
  · dsimp only
    refine ⟨?_, ?_, ?_, ?_, by simp⟩
    · intro d hd
      simp only [List.cons.injEq] at hd
      simp [hd.1]
    · intro hlen
      simp at hlen
    · intro hlen
      simp at hlen
    · intro hlen
      simp at hlen
  · dsimp only
    refine ⟨by simp, ?_, ?_, ?_, by simp⟩
    · intro hlen d hfil
      rw [hfil]
    · intro hlen htx d rest hfil
      rcases hbt : (d0 :: d1 :: cs2).filter (fun x => x.txHash = txHash) with _ | ⟨x, _ | ⟨y, ys⟩⟩
      · rw [hbt, hfil]
      · rw [hbt] at htx
        simp at htx
      · rw [hbt, hfil]
    · intro hlen htx hamt hne
      rcases hbt : (d0 :: d1 :: cs2).filter (fun x => x.txHash = txHash) with _ | ⟨x, _ | ⟨y, ys⟩⟩
      · rw [hbt, hamt]
      · rw [hbt] at htx
        simp at htx
      · rw [hbt, hamt]

/-- Claim C7, amended, witness: two candidates of which exactly one matches
the event's `txHash`: that one is chosen. -/

theorem C7_amended_witness :
    getDonation [donA, donC] "5" "6" 3 0 "hsh" = GetDonationResult.found donA := by
  have h := (C7_amended [donA, donC] "5" "6" 3 0 "hsh").2.1
  exact h (by decide) donA (by decide)

end Giveth
